import Mathlib

/-!
Verification of the relay core of the TGChannel-CLink repository.

The Python source (src/simple_relay.py, src/channel_utils.py) is shallow-embedded:
Python dicts become association lists, wall-clock instants become naturals,
strings become lists of characters, and every function under scrutiny is
translated into an executable Lean definition mirroring its control flow.
-/

namespace TGRelay

/-- Python dict lookup (`d.get(k)` / `k in d`): the first entry with the key. -/
def dictGet {α β : Type} [DecidableEq α] (k : α) : List (α × β) → Option β
  | [] => none
  | e :: rest => if e.1 = k then some e.2 else dictGet k rest

/-- Python dict assignment `d[k] = v`: replace the entry in place or append. -/
def dictInsert {α β : Type} [DecidableEq α] : List (α × β) → α → β → List (α × β)
  | [], k, v => [(k, v)]
  | e :: rest, k, v => if e.1 = k then (k, v) :: rest else e :: dictInsert rest k v

/-- Python `d.pop(k, None)` on a dict with no duplicate keys. -/
def dictRemove {α β : Type} [DecidableEq α] (k : α) (l : List (α × β)) : List (α × β) :=
  l.filter (fun e => ! decide (e.1 = k))

/-- TTL pruning of a timestamp dict: delete every entry with `now - t0 > ttl`
(the loop shape of `SimpleRelay._prune_cache` and `SimpleRelay._prune_groups`). -/
def dictPrune {α : Type} (ttl now : Nat) (l : List (α × Nat)) : List (α × Nat) :=
  l.filter (fun e => ! decide (now - e.2 > ttl))

/-- Characters removed by Python `str.strip()` (ASCII whitespace model). -/
def pySpace (c : Char) : Bool :=
  c == ' ' || c == '\t' || c == '\n' || c == '\r' || c == '\x0b' || c == '\x0c'

/-- Left part of Python `str.strip()`. -/
def lstrip (s : List Char) : List Char := s.dropWhile pySpace

/-- Right part of Python `str.strip()`. -/
def rstrip (s : List Char) : List Char := (s.reverse.dropWhile pySpace).reverse

/-- Python `str.strip()`. -/
def pyStrip (s : List Char) : List Char := rstrip (lstrip s)

/-- Python `str.isdigit()` restricted to ASCII digits. -/
def isDigitStr (l : List Char) : Bool := !l.isEmpty && l.all Char.isDigit

/-- Characters of the regex class `[A-Za-z0-9_]`. -/
def isWordChar (c : Char) : Bool := c.isAlphanum || c == '_'

/-- Anchored literal matcher: `consumeLit pat s` returns the remainder of `s`
after the literal `pat`, the fixed head of an `re.match` pattern. -/
def consumeLit : List Char → List Char → Option (List Char)
  | [], s => some s
  | _ :: _, [] => none
  | p :: ps, c :: cs => if c = p then consumeLit ps cs else none

/-- The characters of `"https://t.me/c/"`. -/
def litHttpsC : List Char :=
  ['h', 't', 't', 'p', 's', ':', '/', '/', 't', '.', 'm', 'e', '/', 'c', '/']

/-- The characters of `"http://t.me/c/"`. -/
def litHttpC : List Char :=
  ['h', 't', 't', 'p', ':', '/', '/', 't', '.', 'm', 'e', '/', 'c', '/']

/-- The characters of `"https://t.me/"`. -/
def litHttps : List Char :=
  ['h', 't', 't', 'p', 's', ':', '/', '/', 't', '.', 'm', 'e', '/']

/-- The characters of `"http://t.me/"`. -/
def litHttp : List Char :=
  ['h', 't', 't', 'p', ':', '/', '/', 't', '.', 'm', 'e', '/']

/-- The characters of `"-100"`. -/
def litDash100 : List Char := ['-', '1', '0', '0']

/-- The characters of `"100"`. -/
def lit100 : List Char := ['1', '0', '0']

/-- The greedy group `(\d+)` read off the remainder after the fixed head:
the maximal digit run, required non-empty (the optional `/\d+` tail of the
pattern never constrains it). -/
def takeDigits1 (rest : List Char) : Option (List Char) :=
  if (rest.takeWhile Char.isDigit).isEmpty then none
  else some (rest.takeWhile Char.isDigit)

/-- The greedy group `([A-Za-z0-9_]+)`, required non-empty. -/
def takeWord1 (rest : List Char) : Option (List Char) :=
  if (rest.takeWhile isWordChar).isEmpty then none
  else some (rest.takeWhile isWordChar)

/-- Group 1 of `re.match(r"https?://t\.me/c/(\d+)(?:/\d+)?", s)`: the optional
`s` of `https?` becomes two literal attempts. -/
def matchCLink (s : List Char) : Option (List Char) :=
  match consumeLit litHttpsC s with
  | some rest => takeDigits1 rest
  | none =>
    match consumeLit litHttpC s with
    | some rest => takeDigits1 rest
    | none => none

/-- Group 1 of `re.match(r"https?://t\.me/([A-Za-z0-9_]+)(?:/\d+)?", s)`. -/
def matchUserLink (s : List Char) : Option (List Char) :=
  match consumeLit litHttps s with
  | some rest => takeWord1 rest
  | none =>
    match consumeLit litHttp s with
    | some rest => takeWord1 rest
    | none => none

/-- Embedding of `channel_utils.normalize_channel_token` on a present string
(the `None` input trivially maps to `None` and is omitted). -/
def normalize_channel_token (token : List Char) : Option (List Char) :=
  if token.isEmpty then none
  else if (pyStrip token).isEmpty then none
  else
    match matchCLink (pyStrip token) with
    | some ds => some (litDash100 ++ ds)
    | none =>
      match matchUserLink (pyStrip token) with
      | some us => some ('@' :: us)
      | none =>
        match pyStrip token with
        | [] => none
        | c :: rest =>
          if c = '@' then some ('@' :: pyStrip rest)
          else if c = '-' ∧ isDigitStr rest = true then some (c :: rest)
          else if isDigitStr (c :: rest) = true then
            if (consumeLit litDash100 (c :: rest)).isSome then some (c :: rest)
            else some (litDash100 ++ (c :: rest))
          else none

/-- Embedding of `is_admin`: an empty `ADMIN_IDS` lets every user through. -/
def is_admin (adminIds : List Int) (userId : Int) : Bool :=
  adminIds.isEmpty || adminIds.contains userId

/-- Deterministic stand-in for CPython's `hash(text) & 0xFFFFFFFF`: a 32-bit
digest of the string. No proof below relies on any property of this function
other than being a function (equal inputs give equal digests), which is all
the source relies upon within one process. -/
def pyHash (s : List Char) : Nat :=
  (s.foldl (fun h c => (h * 31 + c.toNat) % 4294967296) 5381) % 4294967296

/-- The fields of a Telegram message the relay core reads. -/
structure Msg where
  forward_from_chat : Option Int
  forward_from_message_id : Option Int
  media_group_id : Option (List Char)
  text : Option (List Char)
  caption : Option (List Char)
  chat_id : Int
  message_id : Int
deriving DecidableEq

/-- Source fingerprints. `_src_key` and `_src_group_key` build the f-strings
`"src:{chat}:{msgid}"`, `"hash:{digest}"`, `"self:{chat}:{msgid}"`,
`"group:{chat}:{mgid}"`, `"group::{mgid}"` and `"group:self:{chat}"`, which
are only ever compared for equality as dict keys; since the tags differ and
the numeric components render without a `:`, string equality coincides with
constructor-wise equality, so the keys are modelled as a tagged type. -/
inductive SrcKey
  | src (chat msgid : Int)
  | contentHash (digest : Nat)
  | selfKey (chat msgid : Int)
  | groupFwd (chat : Int) (mgid : List Char)
  | groupAnon (mgid : List Char)
  | groupSelf (chat : Int)
deriving DecidableEq

/-- Python `(m.text or m.caption or "")`: first truthy (non-empty) value. -/
def orTruthy (a b : Option (List Char)) : List Char :=
  match a with
  | some s => if s = [] then b.getD [] else s
  | none => b.getD []

/-- The stripped text/caption content `_src_key` hashes. -/
def strippedContent (m : Msg) : List Char := pyStrip (orTruthy m.text m.caption)

/-- Truthiness of `getattr(m, "forward_from_chat", None) and
getattr(m, "forward_from_message_id", None)`: the chat object is truthy when
present, the integer id when non-zero. -/
def fwdTruthy (m : Msg) : Bool :=
  m.forward_from_chat.isSome &&
    (match m.forward_from_message_id with
     | some i => decide (i ≠ 0)
     | none => false)

/-- Embedding of `SimpleRelay._src_key` for a present message. -/
def srcKeyOf (m : Msg) : SrcKey :=
  if fwdTruthy m then
    .src (m.forward_from_chat.getD 0) (m.forward_from_message_id.getD 0)
  else if strippedContent m = [] then .selfKey m.chat_id m.message_id
  else .contentHash (pyHash (strippedContent m))

/-- Truthiness of `getattr(m, "media_group_id", None)` (an optional string). -/
def mgidTruthy (m : Msg) : Bool :=
  match m.media_group_id with
  | some g => decide (g ≠ [])
  | none => false

/-- Embedding of `SimpleRelay._src_group_key`; the message's chat is always
present here, so the `'na'` fallback of the source is unreachable. -/
def srcGroupKey (m : Msg) : SrcKey :=
  if m.forward_from_chat.isSome ∧ mgidTruthy m = true then
    .groupFwd (m.forward_from_chat.getD 0) (m.media_group_id.getD [])
  else if mgidTruthy m then .groupAnon (m.media_group_id.getD [])
  else .groupSelf m.chat_id

/-- `self.sent_ttl = 6 * 3600`. -/
def sent_ttl : Nat := 6 * 3600

/-- `self.group_ttl = 7200`. -/
def group_ttl : Nat := 7200

/-- The per-destination dedup cache `self.sent_cache`. -/
abbrev SentCache : Type := List ((Int × SrcKey) × Nat)

/-- The delivered test performed by the dispatch loops:
`self._prune_cache()` followed by `key in self.sent_cache`. -/
def shouldSkip (now : Nat) (c : SentCache) (k : Int × SrcKey) : Bool :=
  (dictGet k (dictPrune sent_ttl now c)).isSome

/-- The album-processed test of `_flush_media_group`:
`self._prune_groups()` followed by `group_src_key in self.processed_groups`. -/
def groupProcessedCheck (now : Nat) (g : List (SrcKey × Nat)) (gk : SrcKey) : Bool :=
  (dictGet gk (dictPrune group_ttl now g)).isSome

/-- Outcome of one per-destination dispatch task. -/
structure SendToOneRes where
  status : Bool
  key : Option (Int × SrcKey)
  cache : SentCache
  sends : Nat
deriving DecidableEq

/-- Embedding of `handle_forward.send_to_one`. `resolved` is the chat id when
the entry's id was present or `_resolve_chat_id` succeeded, `none` when
resolution raised (caught by the `except` as a failure with `key = None`);
`netOk` is the boolean `_send_one` returns (it swallows its own exceptions);
`sends` counts calls to `_send_one`, i.e. network send attempts. -/
def sendToOne (cache : SentCache) (now : Nat) (resolved : Option Int)
    (src_key : SrcKey) (netOk : Bool) : SendToOneRes :=
  match resolved with
  | none => ⟨false, none, cache, 0⟩
  | some cid =>
    let key := (cid, src_key)
    let c1 := dictPrune sent_ttl now cache
    if (dictGet key c1).isSome then ⟨true, some key, c1, 0⟩
    else if netOk then ⟨true, some key, dictInsert c1 key now, 1⟩
    else ⟨false, some key, c1, 1⟩

/-- Embedding of `_flush_media_group.send_album_to_one`. `mediaNonempty` is
whether the buffered parts yielded any input media; `netOk` is whether
`_send_media_group_no_retry` returned rather than raised (a raise is caught
by the surrounding `except` as a failure). -/
def sendAlbumToOne (cache : SentCache) (now : Nat) (resolved : Option Int)
    (gkey : SrcKey) (mediaNonempty netOk : Bool) : SendToOneRes :=
  match resolved with
  | none => ⟨false, none, cache, 0⟩
  | some cid =>
    let key := (cid, gkey)
    let c1 := dictPrune sent_ttl now cache
    if (dictGet key c1).isSome then ⟨true, some key, c1, 0⟩
    else if !mediaNonempty then ⟨false, some key, c1, 0⟩
    else if netOk then ⟨true, some key, dictInsert c1 key now, 1⟩
    else ⟨false, some key, c1, 1⟩

/-- What one call to the wrapped platform send does: return, or raise one of
the exception classes `_send_with_backoff` distinguishes (`RetryAfter`,
`TimedOut`/`NetworkError`, anything else). -/
inductive CallOutcome
  | ok
  | retryAfter (w : Nat)
  | timedOut
  | netError
  | otherError
deriving DecidableEq

/-- Result of a `_send_with_backoff` run over a finite trace of call
outcomes: `calls` counts invocations of `func`, `slept` accumulates the
`asyncio.sleep` durations; `pending` means the trace ended while the loop
would issue another call. -/
inductive SendResult
  | success (calls slept : Nat)
  | failedAfterRetries (calls slept : Nat)
  | pending
deriving DecidableEq

/-- Embedding of the `while attempt < max_retries` loop of
`SimpleRelay._send_with_backoff`: `RetryAfter e` sleeps `e.retry_after + 1`
and leaves `attempt` unchanged; `TimedOut`/`NetworkError` increment `attempt`
then sleep `1 * attempt`; any other exception increments `attempt` and sleeps
`1`; falling out of the loop raises `RuntimeError`. -/
def sendLoop (maxRetries : Nat) : Nat → Nat → Nat → List CallOutcome → SendResult
  | attempt, calls, slept, [] =>
    if attempt < maxRetries then .pending else .failedAfterRetries calls slept
  | attempt, calls, slept, o :: rest =>
    if attempt < maxRetries then
      match o with
      | .ok => .success (calls + 1) slept
      | .retryAfter w => sendLoop maxRetries attempt (calls + 1) (slept + (w + 1)) rest
      | .timedOut => sendLoop maxRetries (attempt + 1) (calls + 1) (slept + (attempt + 1)) rest
      | .netError => sendLoop maxRetries (attempt + 1) (calls + 1) (slept + (attempt + 1)) rest
      | .otherError => sendLoop maxRetries (attempt + 1) (calls + 1) (slept + 1) rest
    else .failedAfterRetries calls slept

/-- `_send_with_backoff` at its default `max_retries = 3`. -/
def sendWithBackoff (trace : List CallOutcome) : SendResult :=
  sendLoop 3 0 0 0 trace

/-- Result of `_send_media_group_no_retry` over a trace of
`bot.send_media_group` outcomes. -/
inductive AlbumSendResult
  | success (calls slept : Nat)
  | raised (e : CallOutcome) (calls slept : Nat)
  | pending
deriving DecidableEq

/-- Embedding of `SimpleRelay._send_media_group_no_retry`: one call; on
`RetryAfter e` sleep `e.retry_after + 1` and call exactly once more outside
any handler; every other exception of the first call, and any exception of
the second, propagates. -/
def sendMediaGroupNoRetry : List CallOutcome → AlbumSendResult
  | [] => .pending
  | .ok :: _ => .success 1 0
  | .retryAfter w :: rest =>
    match rest with
    | [] => .pending
    | .ok :: _ => .success 2 (w + 1)
    | e :: _ => .raised e 2 (w + 1)
  | e :: _ => .raised e 1 0

/-- Calls issued according to an `AlbumSendResult`. -/
def albumCalls : AlbumSendResult → Nat
  | .success c _ => c
  | .raised _ c _ => c
  | .pending => 0

/-- Insertion of a message into a list sorted by `message_id`, placed after
equal keys, so that the resulting sort is stable like Python `list.sort`. -/
def insertByMsgId (m : Msg) : List Msg → List Msg
  | [] => [m]
  | x :: xs => if m.message_id < x.message_id then m :: x :: xs else x :: insertByMsgId m xs

/-- `msgs.sort(key=lambda x: getattr(x, 'message_id', 0))`. -/
def sortByMsgId : List Msg → List Msg
  | [] => []
  | m :: ms => insertByMsgId m (sortByMsgId ms)

/-- The album-side mutable state of `SimpleRelay`. -/
structure GroupState where
  media_group_buffer : List (String × List Msg)
  media_group_tasks : List String
  processed_groups : List (SrcKey × Nat)
  group_order : List (String × Nat)
  group_next_seq : Nat
deriving DecidableEq

/-- How one run of `_flush_media_group` ended. -/
inductive FlushOutcome
  | cancelledEarly
  | emptyBuffer
  | duplicateGroup
  | blocked
  | dispatched (ok : Bool)
deriving DecidableEq

/-- Whether the run got past the sequence gate, i.e. set
`entered_sequence = True`. -/
def acquiredToken : FlushOutcome → Bool
  | .dispatched _ => true
  | _ => false

/-- The `finally` block of `_flush_media_group`: advance `group_next_seq`
only when `entered_sequence` was set, then pop the buffer entry and the
task entry for `gid`. -/
def flushFinally (st : GroupState) (gid : String) (entered : Bool) : GroupState :=
  { st with
    group_next_seq := if entered then st.group_next_seq + 1 else st.group_next_seq
    media_group_buffer := dictRemove gid st.media_group_buffer
    media_group_tasks := st.media_group_tasks.filter (fun g => ! decide (g = gid)) }

/-- Embedding of one execution of `SimpleRelay._flush_media_group` for `gid`.
`cancelled` models a `CancelledError` delivered in a sleep before the gate
was passed (the `finally` still runs, with `entered_sequence = False`);
`dispatchRaises` models an exception anywhere between passing the gate and
the end of the dispatch phase. A run whose token has not come up yet keeps
waiting in the `while my_seq != self.group_next_seq` poll loop (`blocked`):
its `finally` has not run, so it returns the state mutated so far. -/
def flushMediaGroup (st : GroupState) (gid : String) (now : Nat)
    (cancelled dispatchRaises : Bool) : GroupState × FlushOutcome :=
  if cancelled then (flushFinally st gid false, .cancelledEarly)
  else
    let msgs := (dictGet gid st.media_group_buffer).getD []
    match sortByMsgId msgs with
    | [] => (flushFinally st gid false, .emptyBuffer)
    | m0 :: _ =>
      let gkey := srcGroupKey m0
      let st1 := { st with processed_groups := dictPrune group_ttl now st.processed_groups }
      if (dictGet gkey st1.processed_groups).isSome then (flushFinally st1 gid false, .duplicateGroup)
      else
        let st2 := { st1 with processed_groups := dictInsert st1.processed_groups gkey now }
        let mySeq := (dictGet gid st2.group_order).getD 0
        if mySeq = st2.group_next_seq then
          (flushFinally st2 gid true, .dispatched (!dispatchRaises))
        else (st2, .blocked)

/-- The progress-token table `self.progress_tokens` (chat id → token). -/
structure ProgressState where
  progress_tokens : List (Int × Nat)
deriving DecidableEq

/-- One live progress session: the originating chat, the token stored for it
at creation, and the handle of the freshly posted progress message. -/
structure ProgressSession where
  chat_id : Int
  token : Nat
  msgRef : Nat
deriving DecidableEq

/-- Embedding of `_init_progress_message`: post a new message (`msgRef`),
record `token = time.time()` (here the instant `now`) for the chat, and
return the session dict. -/
def initProgressMessage (st : ProgressState) (chat : Int) (now : Nat)
    (msgRef : Nat) : ProgressState × ProgressSession :=
  ({ progress_tokens := dictInsert st.progress_tokens chat now }, ⟨chat, now, msgRef⟩)

/-- Embedding of the guard and target of `_finalize_progress_message`: if the
stored token for the chat differs from the session's, return without touching
anything; otherwise edit the session's own message, whose handle is returned. -/
def finalizeProgressMessage (st : ProgressState) (s : ProgressSession) : Option Nat :=
  if dictGet s.chat_id st.progress_tokens = some s.token then some s.msgRef else none

/-! Helper lemmas about the dict model. -/

theorem dictGet_dictInsert_self {α β : Type} [DecidableEq α] (l : List (α × β)) (k : α) (v : β) :
    dictGet k (dictInsert l k v) = some v := by
  induction l with
  | nil => simp [dictInsert, dictGet]
  | cons e rest ih =>
    by_cases h : e.1 = k
    · simp [dictInsert, h, dictGet]
    · simp [dictInsert, h, dictGet, ih]

theorem dictGet_filter_of_none {α β : Type} [DecidableEq α] (p : α × β → Bool)
    (l : List (α × β)) (k : α) (h : dictGet k l = none) :
    dictGet k (l.filter p) = none := by
  induction l with
  | nil => simpa using h
  | cons e rest ih =>
    by_cases he : e.1 = k
    · simp [dictGet, he] at h
    · simp only [dictGet, he, if_neg, ite_false] at h
      rw [List.filter_cons]
      split
      · simp only [dictGet, he, ite_false, if_neg]
        exact ih h
      · exact ih h

theorem dictGet_prune_of_none {α : Type} [DecidableEq α] (ttl now : Nat)
    (l : List (α × Nat)) (k : α) (h : dictGet k l = none) :
    dictGet k (dictPrune ttl now l) = none :=
  dictGet_filter_of_none _ l k h

theorem dictGet_prune_insert_fresh {α : Type} [DecidableEq α] (ttl t now : Nat)
    (l : List (α × Nat)) (k : α) (h : dictGet k l = none) :
    dictGet k (dictPrune ttl now (dictInsert l k t)) =
      if now - t ≤ ttl then some t else none := by
  induction l with
  | nil =>
    simp only [dictInsert, dictPrune, List.filter_cons, List.filter_nil]
    by_cases hc : now - t > ttl
    · simp [dictGet, hc, Nat.not_le.mpr hc]
    · simp [dictGet, hc, Nat.not_lt.mp hc]
  | cons e rest ih =>
    by_cases he : e.1 = k
    · simp [dictGet, he] at h
    · simp only [dictGet, he, ite_false, if_neg] at h
      simp only [dictInsert, he, ite_false, if_neg, dictPrune, List.filter_cons]
      split
      · simp only [dictGet, he, ite_false, if_neg]
        exact ih h
      · exact ih h

theorem dictGet_prune_isSome {α : Type} [DecidableEq α] (ttl now : Nat)
    (l : List (α × Nat)) (k : α) :
    (dictGet k (dictPrune ttl now l)).isSome = true ↔
      ∃ t0, (k, t0) ∈ l ∧ now - t0 ≤ ttl := by
  induction l with
  | nil => simp [dictPrune, dictGet]
  | cons e rest ih =>
    rw [dictPrune, List.filter_cons]
    by_cases hkeep : now - e.2 > ttl
    · rw [if_neg (by simp [hkeep])]
      rw [← dictPrune, ih]
      constructor
      · rintro ⟨t0, hm, hle⟩
        exact ⟨t0, List.mem_cons_of_mem _ hm, hle⟩
      · rintro ⟨t0, hm, hle⟩
        rcases List.mem_cons.mp hm with hh | ht
        · exfalso
          have h2 : t0 = e.2 := congrArg Prod.snd hh
          omega
        · exact ⟨t0, ht, hle⟩
    · rw [if_pos (by simp [hkeep])]
      by_cases he : e.1 = k
      · simp only [dictGet, he, ite_true, if_pos, Option.isSome_some, true_iff]
        refine ⟨e.2, ?_, Nat.not_lt.mp hkeep⟩
        rw [← he]
        simp
      · simp only [dictGet, he, ite_false, if_neg]
        rw [← dictPrune, ih]
        constructor
        · rintro ⟨t0, hm, hle⟩
          exact ⟨t0, List.mem_cons_of_mem _ hm, hle⟩
        · rintro ⟨t0, hm, hle⟩
          rcases List.mem_cons.mp hm with hh | ht
          · exact absurd (congrArg Prod.fst hh.symm) he
          · exact ⟨t0, ht, hle⟩

/-- Rate-limited attempts never consume the retry budget: a run of `n`
`RetryAfter` outcomes adds `n` calls and `n * (w + 1)` sleep without touching
`attempt`. -/
theorem sendLoop_replicate_retryAfter (n w : Nat) (attempt : Nat) (h : attempt < 3) :
    ∀ (calls slept : Nat) (trace : List CallOutcome),
      sendLoop 3 attempt calls slept (List.replicate n (.retryAfter w) ++ trace) =
        sendLoop 3 attempt (calls + n) (slept + n * (w + 1)) trace := by
  induction n with
  | zero => intro calls slept trace; simp
  | succ n ih =>
    intro calls slept trace
    rw [List.replicate_succ, List.cons_append]
    show (if attempt < 3 then sendLoop 3 attempt (calls + 1) (slept + (w + 1))
            (List.replicate n (.retryAfter w) ++ trace)
          else .failedAfterRetries calls slept) = _
    rw [if_pos h, ih]
    have h1 : calls + 1 + n = calls + (n + 1) := by omega
    have h2 : slept + (w + 1) + n * (w + 1) = slept + (n + 1) * (w + 1) := by ring
    rw [h1, h2]

/-- C1 counterexample: after a rate-limit signal with wait 5 and a retry that
is itself rate-limited, `_send_with_backoff` has not given up (the loop is
still issuing calls) and a third call is in fact made, with 6 units slept
after each of the two `RetryAfter` signals. -/
theorem rateLimitSingleRetry_cex :
    sendWithBackoff [.retryAfter 5, .retryAfter 5] = .pending ∧
    sendWithBackoff [.retryAfter 5, .retryAfter 5, .ok] = .success 3 12 :=
  ⟨rfl, rfl⟩

/-- C1 (amended): on every rate-limit signal with wait `w` the sender sleeps
`w + 1` before retrying, and rate-limited failures never consume the
3-attempt retry budget, so there is no bound on the number of
rate-limit-driven retries of a single-message send: `n` consecutive
`RetryAfter w` signals followed by a success give `n + 1` calls and
`n * (w + 1)` total sleep. -/
theorem rateLimitRetriesUnbounded (n w : Nat) (rest : List CallOutcome) :
    sendWithBackoff (List.replicate n (.retryAfter w) ++ .ok :: rest) =
      .success (n + 1) (n * (w + 1)) := by
  rw [sendWithBackoff, sendLoop_replicate_retryAfter n w 0 (by omega)]
  show (if 0 < 3 then SendResult.success (0 + n + 1) (0 + n * (w + 1))
        else .failedAfterRetries (0 + n) (0 + n * (w + 1))) = _
  rw [if_pos (by omega)]
  simp

/-- C2 counterexample: a failure that is neither rate-limit nor
network/timeout (the bare `except Exception` class) is retried — a second
call is issued after a 1-unit sleep — rather than propagating immediately. -/
theorem nonRetriableOther_cex : sendWithBackoff [.otherError, .ok] = .success 2 1 :=
  rfl

/-- C2 (amended): failures outside the rate-limit and network/timeout classes
are retried like transient ones: each consumes one unit of the 3-attempt
budget after a 1-unit sleep, and only after three such failures does the call
give up (raising a generic `RuntimeError` rather than the original error). -/
theorem otherFailuresConsumeBudget (rest : List CallOutcome) :
    sendWithBackoff (.otherError :: .ok :: rest) = .success 2 1 ∧
    sendWithBackoff (.otherError :: .otherError :: .ok :: rest) = .success 3 2 ∧
    sendWithBackoff (.otherError :: .otherError :: .otherError :: rest) =
      .failedAfterRetries 3 3 := by
  refine ⟨rfl, rfl, ?_⟩
  cases rest <;> rfl

/-- C9: with an empty `ADMIN_IDS` every user id passes `is_admin` (and may
therefore trigger relays and registry commands, all of which gate on it);
with a non-empty list exactly its members pass. -/
theorem isAdminSpec :
    (∀ u : Int, is_admin [] u = true) ∧
    ∀ (ids : List Int) (u : Int), ids ≠ [] → (is_admin ids u = true ↔ u ∈ ids) := by
  constructor
  · intro u; rfl
  · intro ids u hne
    simp [is_admin, List.isEmpty_iff, hne]

/-- C9 witness: the empty-list and membership cases at concrete inputs. -/
theorem isAdminSpec_witness :
    is_admin [] 7 = true ∧ (is_admin [5] 5 = true ↔ (5 : Int) ∈ [5]) :=
  ⟨isAdminSpec.1 7, isAdminSpec.2 [5] 5 (by simp)⟩

/-- C3 counterexample: an album dedup entry of age 10000 seconds — beyond the
claimed 7200-second album TTL — still marks the destination as already
delivered: the album send is skipped (no network send) although
`10000 ≤ group_ttl` is false, because `send_album_to_one` consults
`sent_cache` pruned with `sent_ttl = 21600`, not with `group_ttl`. -/
theorem albumDedupTtl_cex :
    (sendAlbumToOne [((1, SrcKey.groupAnon ['7']), 0)] 10000 (some 1)
        (SrcKey.groupAnon ['7']) true true).status = true ∧
    (sendAlbumToOne [((1, SrcKey.groupAnon ['7']), 0)] 10000 (some 1)
        (SrcKey.groupAnon ['7']) true true).sends = 0 ∧
    ¬ (10000 - 0 ≤ group_ttl) := by
  decide

/-- C3 (amended): a destination counts as already delivered for a fingerprint
iff a `sent_cache` entry exists with age at most 21600 seconds — for single
messages and albums alike; the 7200-second TTL governs the separate per-album
processed marker (`processed_groups`), which dedups whole album flushes, not
per-destination delivery. -/
theorem dedupFreshnessTtl (now : Nat) (c : SentCache) (k : Int × SrcKey)
    (g : List (SrcKey × Nat)) (gk : SrcKey) :
    (shouldSkip now c k = true ↔ ∃ t0, (k, t0) ∈ c ∧ now - t0 ≤ sent_ttl) ∧
    (groupProcessedCheck now g gk = true ↔ ∃ t0, (gk, t0) ∈ g ∧ now - t0 ≤ group_ttl) ∧
    sent_ttl = 21600 ∧ group_ttl = 7200 :=
  ⟨dictGet_prune_isSome sent_ttl now c k,
   dictGet_prune_isSome group_ttl now g gk, rfl, rfl⟩

/-- C5: after `record(D,F)` at time `t` (a `sent_cache` assignment), a lookup
at `t2` skips iff `t2 - t ≤ TTL`; hence dispatching the same unit to the same
destination twice within the TTL makes exactly one network send and reports
success both times. -/
theorem dedupOncePerTtl (c : SentCache) (cid : Int) (sk : SrcKey) (t t2 : Nat)
    (hfresh : dictGet (cid, sk) c = none) :
    (t2 - t ≤ sent_ttl → shouldSkip t2 (dictInsert c (cid, sk) t) (cid, sk) = true) ∧
    (sent_ttl < t2 - t → shouldSkip t2 (dictInsert c (cid, sk) t) (cid, sk) = false) ∧
    (t2 - t ≤ sent_ttl →
      (sendToOne c t (some cid) sk true).status = true ∧
      (sendToOne c t (some cid) sk true).sends = 1 ∧
      ∀ netOk2 : Bool,
        (sendToOne (sendToOne c t (some cid) sk true).cache t2 (some cid) sk netOk2).status = true ∧
        (sendToOne (sendToOne c t (some cid) sk true).cache t2 (some cid) sk netOk2).sends = 0) := by
  have hskip := dictGet_prune_insert_fresh sent_ttl t t2 c (cid, sk) hfresh
  refine ⟨?_, ?_, ?_⟩
  · intro hle
    rw [shouldSkip, hskip, if_pos hle]
    rfl
  · intro hgt
    rw [shouldSkip, hskip, if_neg (by omega)]
    rfl
  · intro hle
    have hfresh1 : dictGet (cid, sk) (dictPrune sent_ttl t c) = none :=
      dictGet_prune_of_none sent_ttl t c (cid, sk) hfresh
    have hr1 : sendToOne c t (some cid) sk true =
        ⟨true, some (cid, sk), dictInsert (dictPrune sent_ttl t c) (cid, sk) t, 1⟩ := by
      rw [sendToOne]
      simp [hfresh1]
    refine ⟨by rw [hr1], by rw [hr1], ?_⟩
    intro netOk2
    have hfound : dictGet (cid, sk)
        (dictPrune sent_ttl t2 (dictInsert (dictPrune sent_ttl t c) (cid, sk) t)) = some t :=
      by rw [dictGet_prune_insert_fresh sent_ttl t t2 _ _ hfresh1, if_pos hle]
    rw [hr1]
    constructor
    · rw [sendToOne]
      simp [hfound]
    · rw [sendToOne]
      simp [hfound]

/-- C5 witness: a fresh key recorded at time 100 is skipped at time 200, and
the second dispatch of the same unit performs no network send. -/
theorem dedupOncePerTtl_witness :
    shouldSkip 200 (dictInsert [] (1, SrcKey.contentHash 0) 100) (1, SrcKey.contentHash 0) = true ∧
    (sendToOne [] 100 (some 1) (SrcKey.contentHash 0) true).sends = 1 ∧
    (sendToOne (sendToOne [] 100 (some 1) (SrcKey.contentHash 0) true).cache 200 (some 1)
        (SrcKey.contentHash 0) true).status = true ∧
    (sendToOne (sendToOne [] 100 (some 1) (SrcKey.contentHash 0) true).cache 200 (some 1)
        (SrcKey.contentHash 0) true).sends = 0 := by
  have h := dedupOncePerTtl [] 1 (SrcKey.contentHash 0) 100 200 rfl
  have h3 := h.2.2 (by decide)
  exact ⟨h.1 (by decide), h3.2.1, (h3.2.2 true).1, (h3.2.2 true).2⟩

/-- C7: an album send makes at most two calls; a first failure outside the
rate-limited class is surfaced at once with no retry; a rate-limit signal
sleeps `w + 1` and is followed by exactly one retry whose own outcome —
success or any exception — is final. -/
theorem albumRetryPolicy (w : Nat) (e : CallOutcome) (rest t : List CallOutcome) :
    albumCalls (sendMediaGroupNoRetry t) ≤ 2 ∧
    sendMediaGroupNoRetry (.ok :: rest) = .success 1 0 ∧
    ((e ≠ .ok ∧ ∀ w2, e ≠ .retryAfter w2) →
      sendMediaGroupNoRetry (e :: rest) = .raised e 1 0) ∧
    sendMediaGroupNoRetry (.retryAfter w :: .ok :: rest) = .success 2 (w + 1) ∧
    (e ≠ .ok → sendMediaGroupNoRetry (.retryAfter w :: e :: rest) = .raised e 2 (w + 1)) := by
  refine ⟨?_, rfl, ?_, rfl, ?_⟩
  · match t with
    | [] => exact Nat.zero_le 2
    | .ok :: _ => exact one_le_two
    | .retryAfter w1 :: [] => exact Nat.zero_le 2
    | .retryAfter w1 :: .ok :: _ => exact le_refl 2
    | .retryAfter w1 :: .retryAfter w2 :: _ => exact le_refl 2
    | .retryAfter w1 :: .timedOut :: _ => exact le_refl 2
    | .retryAfter w1 :: .netError :: _ => exact le_refl 2
    | .retryAfter w1 :: .otherError :: _ => exact le_refl 2
    | .timedOut :: _ => exact one_le_two
    | .netError :: _ => exact one_le_two
    | .otherError :: _ => exact one_le_two
  · rintro ⟨hok, hra⟩
    match e with
    | .ok => exact absurd rfl hok
    | .retryAfter w2 => exact absurd rfl (hra w2)
    | .timedOut => rfl
    | .netError => rfl
    | .otherError => rfl
  · intro hok
    match e with
    | .ok => exact absurd rfl hok
    | .retryAfter w2 => rfl
    | .timedOut => rfl
    | .netError => rfl
    | .otherError => rfl

/-- C7 witness: the policy at wait 5, a `TimedOut` failure and empty traces. -/
theorem albumRetryPolicy_witness :
    albumCalls (sendMediaGroupNoRetry []) ≤ 2 ∧
    sendMediaGroupNoRetry [.timedOut] = .raised .timedOut 1 0 ∧
    sendMediaGroupNoRetry [.retryAfter 5, .timedOut] = .raised .timedOut 2 6 := by
  have h := albumRetryPolicy 5 .timedOut [] []
  exact ⟨h.1, h.2.2.1 ⟨fun hc => CallOutcome.noConfusion hc,
    fun w2 hc => CallOutcome.noConfusion hc⟩, h.2.2.2.2 (fun hc => CallOutcome.noConfusion hc)⟩

/-- C8: a finalize whose session token has been superseded for its chat is a
silent no-op, while the superseding session's finalize edits its own message;
in general a finalize can only ever touch the message the session itself
posted, so a stale finalize leaves the later operation's message untouched. -/
theorem staleFinalizeNoop (st : ProgressState) (chat : Int) (n1 n2 m1 m2 : Nat)
    (hne : n1 ≠ n2) :
    finalizeProgressMessage
        (initProgressMessage (initProgressMessage st chat n1 m1).1 chat n2 m2).1
        (initProgressMessage st chat n1 m1).2 = none ∧
    finalizeProgressMessage
        (initProgressMessage (initProgressMessage st chat n1 m1).1 chat n2 m2).1
        (initProgressMessage (initProgressMessage st chat n1 m1).1 chat n2 m2).2 = some m2 ∧
    (∀ (st0 : ProgressState) (s : ProgressSession),
      finalizeProgressMessage st0 s = none ∨ finalizeProgressMessage st0 s = some s.msgRef) := by
  have hget : dictGet chat (dictInsert (dictInsert st.progress_tokens chat n1) chat n2) =
      some n2 := dictGet_dictInsert_self _ chat n2
  refine ⟨?_, ?_, ?_⟩
  · rw [finalizeProgressMessage]
    simp only [initProgressMessage, hget]
    rw [if_neg]
    intro hc
    exact hne (Option.some.inj hc).symm
  · rw [finalizeProgressMessage]
    simp only [initProgressMessage, hget]
    simp
  · intro st0 s
    rw [finalizeProgressMessage]
    split
    · right; rfl
    · left; rfl

/-- C8 witness: two sessions in chat 9 with tokens 1 then 2; the stale
finalize is a no-op and the live one edits its own message 200. -/
theorem staleFinalizeNoop_witness :
    finalizeProgressMessage
        (initProgressMessage (initProgressMessage ⟨[]⟩ 9 1 100).1 9 2 200).1
        (initProgressMessage ⟨[]⟩ 9 1 100).2 = none ∧
    finalizeProgressMessage
        (initProgressMessage (initProgressMessage ⟨[]⟩ 9 1 100).1 9 2 200).1
        (initProgressMessage (initProgressMessage ⟨[]⟩ 9 1 100).1 9 2 200).2 = some 200 := by
  have h := staleFinalizeNoop ⟨[]⟩ 9 1 2 100 200 (by decide)
  exact ⟨h.1, h.2.1⟩

/-- Example state for the C6 witness: one buffered single-part album `"g"`
whose order token 0 equals the current sequence counter. -/
def exFlushState : GroupState :=
  ⟨[("g", [⟨none, none, some ['5'], none, none, 3, 1⟩])], ["g"], [], [("g", 0)], 0⟩

/-- C6: a `_flush_media_group` run advances `group_next_seq` by exactly one
iff it passed the sequence gate (`entered_sequence`), whether or not the
dispatch phase then raised; runs that end before acquiring the token —
cancellation, an empty buffer, or the album-processed marker — and runs
still waiting at the gate leave the counter unchanged. Whenever the gate is
passed, the run's order token equalled the counter at that moment. -/
theorem albumSeqAdvance (st : GroupState) (gid : String) (now : Nat)
    (cancelled dispatchRaises : Bool) :
    (flushMediaGroup st gid now cancelled dispatchRaises).1.group_next_seq =
      st.group_next_seq +
        (if acquiredToken (flushMediaGroup st gid now cancelled dispatchRaises).2 then 1 else 0) ∧
    (acquiredToken (flushMediaGroup st gid now cancelled dispatchRaises).2 = true →
      (dictGet gid st.group_order).getD 0 = st.group_next_seq) := by
  rw [flushMediaGroup]
  by_cases hc : cancelled
  · simp [hc, flushFinally, acquiredToken]
  · simp only [hc, if_neg, ite_false]
    cases hs : sortByMsgId ((dictGet gid st.media_group_buffer).getD []) with
    | nil => simp [flushFinally, acquiredToken]
    | cons m0 ms =>
      simp only
      by_cases hdup :
          (dictGet (srcGroupKey m0)
            (dictPrune group_ttl now st.processed_groups)).isSome = true
      · simp [hdup, flushFinally, acquiredToken]
      · simp only [Bool.not_eq_true] at hdup
        simp only [hdup, Bool.false_eq_true, if_neg, ite_false]
        by_cases hseq : (dictGet gid st.group_order).getD 0 = st.group_next_seq
        · simp [hseq, flushFinally, acquiredToken]
        · simp [hseq, flushFinally, acquiredToken]

/-- C6 witness: on `exFlushState` the gate is passed (token 0 equals the
counter), and the counter advances to 1 even when the dispatch raises. -/
theorem albumSeqAdvance_witness :
    (flushMediaGroup exFlushState "g" 7 false true).1.group_next_seq =
      exFlushState.group_next_seq + 1 ∧
    (dictGet "g" exFlushState.group_order).getD 0 = exFlushState.group_next_seq := by
  have h := albumSeqAdvance exFlushState "g" 7 false true
  exact ⟨h.1.trans (by decide), h.2 (by decide)⟩

/-- Unfolding of the forwarded-message truthiness test. -/
theorem fwdTruthy_iff (m : Msg) :
    fwdTruthy m = true ↔
      ∃ fc fid, m.forward_from_chat = some fc ∧
        m.forward_from_message_id = some fid ∧ fid ≠ 0 := by
  rw [fwdTruthy]
  cases hc : m.forward_from_chat <;> cases hi : m.forward_from_message_id <;> simp

/-- Two distinct non-forwarded messages carrying the same text. -/
def msgA : Msg := ⟨none, none, none, some ['h', 'i'], none, 1, 10⟩

/-- A second message with the same text but another chat and message id. -/
def msgB : Msg := ⟨none, none, none, some ['h', 'i'], none, 2, 20⟩

/-- C4 counterexample: `msgA` and `msgB` are distinct inbound units, neither
is a forwarded re-delivery (no forward origin at all), yet `_src_key` gives
them the same fingerprint, because the non-forwarded fallback keys on a
content hash alone. -/
theorem srcKeyCollision_cex :
    msgA ≠ msgB ∧ fwdTruthy msgA = false ∧ fwdTruthy msgB = false ∧
    srcKeyOf msgA = srcKeyOf msgB := by
  decide

/-- C4 (amended): two inbound units share a fingerprint only when (a) both
are forwarded re-deliveries of the same original chat and message id, or
(b) both are non-forwarded with non-empty stripped content whose 32-bit
hashes agree (in particular, equal content), or (c) both are non-forwarded
and content-free with the same own chat id and message id (the same unit). -/
theorem srcKeyCollisions (m1 m2 : Msg) (h : srcKeyOf m1 = srcKeyOf m2) :
    (fwdTruthy m1 = true ∧ fwdTruthy m2 = true ∧
      m1.forward_from_chat = m2.forward_from_chat ∧
      m1.forward_from_message_id = m2.forward_from_message_id) ∨
    (fwdTruthy m1 = false ∧ fwdTruthy m2 = false ∧
      strippedContent m1 ≠ [] ∧ strippedContent m2 ≠ [] ∧
      pyHash (strippedContent m1) = pyHash (strippedContent m2)) ∨
    (fwdTruthy m1 = false ∧ fwdTruthy m2 = false ∧
      strippedContent m1 = [] ∧ strippedContent m2 = [] ∧
      m1.chat_id = m2.chat_id ∧ m1.message_id = m2.message_id) := by
  rw [srcKeyOf, srcKeyOf] at h
  by_cases h1 : fwdTruthy m1 = true <;> by_cases h2 : fwdTruthy m2 = true
  · rw [if_pos h1, if_pos h2] at h
    obtain ⟨fc1, fid1, hc1, hi1, -⟩ := (fwdTruthy_iff m1).mp h1
    obtain ⟨fc2, fid2, hc2, hi2, -⟩ := (fwdTruthy_iff m2).mp h2
    rw [hc1, hi1, hc2, hi2] at h
    simp only [Option.getD_some, SrcKey.src.injEq] at h
    left
    exact ⟨h1, h2, by rw [hc1, hc2, h.1], by rw [hi1, hi2, h.2]⟩
  · rw [if_pos h1, if_neg h2] at h
    by_cases hs2 : strippedContent m2 = [] <;> simp [hs2] at h
  · rw [if_neg h1, if_pos h2] at h
    by_cases hs1 : strippedContent m1 = [] <;> simp [hs1] at h
  · rw [if_neg h1, if_neg h2] at h
    simp only [Bool.not_eq_true] at h1 h2
    by_cases hs1 : strippedContent m1 = [] <;> by_cases hs2 : strippedContent m2 = []
    · rw [if_pos hs1, if_pos hs2] at h
      simp only [SrcKey.selfKey.injEq] at h
      right; right
      exact ⟨h1, h2, hs1, hs2, h.1, h.2⟩
    · rw [if_pos hs1, if_neg hs2] at h
      exact absurd h (by simp)
    · rw [if_neg hs1, if_pos hs2] at h
      exact absurd h (by simp)
    · rw [if_neg hs1, if_neg hs2] at h
      simp only [SrcKey.contentHash.injEq] at h
      right; left
      exact ⟨h1, h2, hs1, hs2, h⟩

/-- C4 witness: the characterization applied to the colliding pair
`msgA`, `msgB`, which lands in the equal-content-hash case. -/
theorem srcKeyCollisions_witness :
    (fwdTruthy msgA = true ∧ fwdTruthy msgB = true ∧
      msgA.forward_from_chat = msgB.forward_from_chat ∧
      msgA.forward_from_message_id = msgB.forward_from_message_id) ∨
    (fwdTruthy msgA = false ∧ fwdTruthy msgB = false ∧
      strippedContent msgA ≠ [] ∧ strippedContent msgB ≠ [] ∧
      pyHash (strippedContent msgA) = pyHash (strippedContent msgB)) ∨
    (fwdTruthy msgA = false ∧ fwdTruthy msgB = false ∧
      strippedContent msgA = [] ∧ strippedContent msgB = [] ∧
      msgA.chat_id = msgB.chat_id ∧ msgA.message_id = msgB.message_id) :=
  srcKeyCollisions msgA msgB (by decide)

/-! Lemmas on the Python string-stripping model, towards C10. -/

theorem pySpace_cases (c : Char) (h : pySpace c = true) :
    c = ' ' ∨ c = '\t' ∨ c = '\n' ∨ c = '\r' ∨ c = '\x0b' ∨ c = '\x0c' := by
  rw [pySpace] at h
  simp only [Bool.or_eq_true, beq_iff_eq] at h
  tauto

theorem not_space_of_digit (c : Char) (h : Char.isDigit c = true) : pySpace c = false := by
  cases hps : pySpace c with
  | false => rfl
  | true =>
    rcases pySpace_cases c hps with h2 | h2 | h2 | h2 | h2 | h2 <;>
      (subst h2; exact absurd h (by decide))

theorem not_space_of_word (c : Char) (h : isWordChar c = true) : pySpace c = false := by
  cases hps : pySpace c with
  | false => rfl
  | true =>
    rcases pySpace_cases c hps with h2 | h2 | h2 | h2 | h2 | h2 <;>
      (subst h2; exact absurd h (by decide))

theorem lstrip_cons_nonspace (a : Char) (v : List Char) (h : pySpace a = false) :
    lstrip (a :: v) = a :: v := by
  rw [lstrip, List.dropWhile_cons, if_neg (by simp [h])]

theorem lstrip_eq_self (s : List Char) (h : ∀ c ∈ s, pySpace c = false) :
    lstrip s = s := by
  cases s with
  | nil => rfl
  | cons a t => exact lstrip_cons_nonspace a t (h a (List.mem_cons_self a t))

theorem rstrip_cons_nonspace (a : Char) (v : List Char) (h : pySpace a = false) :
    rstrip (a :: v) = a :: rstrip v := by
  rw [rstrip, rstrip, List.reverse_cons, List.dropWhile_append]
  by_cases he : (v.reverse.dropWhile pySpace).isEmpty = true
  · rw [if_pos he]
    have hv : v.reverse.dropWhile pySpace = [] := by
      cases hd : v.reverse.dropWhile pySpace with
      | nil => rfl
      | cons x xs => rw [hd] at he; cases he
    rw [hv]
    rw [show List.dropWhile pySpace [a] = [a] from by
      rw [List.dropWhile_cons, if_neg (by simp [h])]]
    rfl
  · rw [if_neg he, List.reverse_append]
    rfl

theorem rstrip_eq_self (s : List Char) (h : ∀ c ∈ s, pySpace c = false) :
    rstrip s = s := by
  induction s with
  | nil => rfl
  | cons a t ih =>
    rw [rstrip_cons_nonspace a t (h a (List.mem_cons_self a t))]
    rw [ih (fun c hc => h c (List.mem_cons_of_mem a hc))]

theorem pyStrip_eq_self (s : List Char) (h : ∀ c ∈ s, pySpace c = false) :
    pyStrip s = s := by
  rw [pyStrip, lstrip_eq_self s h, rstrip_eq_self s h]

theorem dropWhile_idem (p : Char → Bool) (l : List Char) :
    (l.dropWhile p).dropWhile p = l.dropWhile p := by
  induction l with
  | nil => rfl
  | cons a t ih =>
    rw [List.dropWhile_cons]
    by_cases h : p a = true
    · rw [if_pos h]; exact ih
    · rw [if_neg h, List.dropWhile_cons, if_neg h]

theorem rstrip_idem (v : List Char) : rstrip (rstrip v) = rstrip v := by
  rw [rstrip, rstrip, List.reverse_reverse, dropWhile_idem]

theorem rstrip_pyStrip (u : List Char) : rstrip (pyStrip u) = pyStrip u := by
  rw [pyStrip, rstrip_idem]

theorem lstrip_head_nonspace (s : List Char) (a : Char) (t : List Char)
    (h : lstrip s = a :: t) : pySpace a = false := by
  induction s with
  | nil => exact absurd h (by simp [lstrip])
  | cons b u ih =>
    rw [lstrip, List.dropWhile_cons] at h
    by_cases hb : pySpace b = true
    · rw [if_pos (by simp [hb])] at h
      exact ih (by rw [lstrip]; exact h)
    · rw [if_neg (by simp [Bool.not_eq_true] at hb; simp [hb])] at h
      injection h with h1 h2
      subst h1
      simpa using hb

theorem pyStrip_idem (s : List Char) : pyStrip (pyStrip s) = pyStrip s := by
  cases hls : lstrip s with
  | nil =>
    have h0 : pyStrip s = [] := by rw [pyStrip, hls]; rfl
    rw [h0]
    rfl
  | cons a t =>
    have ha : pySpace a = false := lstrip_head_nonspace s a t hls
    have h0 : pyStrip s = a :: rstrip t := by
      rw [pyStrip, hls, rstrip_cons_nonspace a t ha]
    rw [h0, pyStrip, lstrip_cons_nonspace a _ ha, rstrip_cons_nonspace a _ ha, rstrip_idem]

theorem all_takeWhile (p : Char → Bool) (l : List Char) :
    (l.takeWhile p).all p = true := by
  induction l with
  | nil => rfl
  | cons a t ih =>
    rw [List.takeWhile_cons]
    by_cases h : p a = true
    · rw [if_pos h]
      simp [h, ih]
    · rw [if_neg h]
      rfl

theorem consumeLit_head_ne (p : Char) (ps : List Char) (c : Char) (cs : List Char)
    (h : ¬ c = p) : consumeLit (p :: ps) (c :: cs) = none := by
  simp [consumeLit, h]

theorem matchCLink_head_ne (c : Char) (cs : List Char) (h : ¬ c = 'h') :
    matchCLink (c :: cs) = none := by
  have e1 : consumeLit litHttpsC (c :: cs) = none := by
    rw [litHttpsC]
    exact consumeLit_head_ne _ _ _ _ h
  have e2 : consumeLit litHttpC (c :: cs) = none := by
    rw [litHttpC]
    exact consumeLit_head_ne _ _ _ _ h
  rw [matchCLink, e1, e2]

theorem matchUserLink_head_ne (c : Char) (cs : List Char) (h : ¬ c = 'h') :
    matchUserLink (c :: cs) = none := by
  have e1 : consumeLit litHttps (c :: cs) = none := by
    rw [litHttps]
    exact consumeLit_head_ne _ _ _ _ h
  have e2 : consumeLit litHttp (c :: cs) = none := by
    rw [litHttp]
    exact consumeLit_head_ne _ _ _ _ h
  rw [matchUserLink, e1, e2]

theorem takeDigits1_some (rest ds : List Char) (h : takeDigits1 rest = some ds) :
    ds ≠ [] ∧ ds.all Char.isDigit = true := by
  rw [takeDigits1] at h
  by_cases he : (rest.takeWhile Char.isDigit).isEmpty = true
  · rw [if_pos he] at h
    cases h
  · rw [if_neg he] at h
    injection h with h2
    subst h2
    refine ⟨fun hnil => ?_, all_takeWhile _ _⟩
    rw [hnil] at he
    exact he rfl

theorem takeWord1_some (rest us : List Char) (h : takeWord1 rest = some us) :
    us ≠ [] ∧ us.all isWordChar = true := by
  rw [takeWord1] at h
  by_cases he : (rest.takeWhile isWordChar).isEmpty = true
  · rw [if_pos he] at h
    cases h
  · rw [if_neg he] at h
    injection h with h2
    subst h2
    refine ⟨fun hnil => ?_, all_takeWhile _ _⟩
    rw [hnil] at he
    exact he rfl

theorem matchCLink_some (s ds : List Char) (h : matchCLink s = some ds) :
    ds ≠ [] ∧ ds.all Char.isDigit = true := by
  rw [matchCLink] at h
  cases h1 : consumeLit litHttpsC s with
  | some rest =>
    rw [h1] at h
    exact takeDigits1_some rest ds h
  | none =>
    rw [h1] at h
    cases h2 : consumeLit litHttpC s with
    | some rest =>
      rw [h2] at h
      exact takeDigits1_some rest ds h
    | none =>
      rw [h2] at h
      cases h

theorem matchUserLink_some (s us : List Char) (h : matchUserLink s = some us) :
    us ≠ [] ∧ us.all isWordChar = true := by
  rw [matchUserLink] at h
  cases h1 : consumeLit litHttps s with
  | some rest =>
    rw [h1] at h
    exact takeWord1_some rest us h
  | none =>
    rw [h1] at h
    cases h2 : consumeLit litHttp s with
    | some rest =>
      rw [h2] at h
      exact takeWord1_some rest us h
    | none =>
      rw [h2] at h
      cases h

theorem isDigitStr_iff (l : List Char) :
    isDigitStr l = true ↔ l ≠ [] ∧ l.all Char.isDigit = true := by
  rw [isDigitStr]
  cases l <;> simp

/-- Fixed point of `normalize_channel_token` on dash-then-digits outputs. -/
theorem normalize_dash_digits (u : List Char) (hne : u ≠ [])
    (hdig : u.all Char.isDigit = true) :
    normalize_channel_token ('-' :: u) = some ('-' :: u) := by
  have hns : ∀ c ∈ '-' :: u, pySpace c = false := by
    intro c hc
    rcases List.mem_cons.mp hc with h | h
    · subst h
      decide
    · refine not_space_of_digit c ?_
      exact List.all_eq_true.mp hdig c h
  have hstrip : pyStrip ('-' :: u) = '-' :: u := pyStrip_eq_self _ hns
  have hmc : matchCLink ('-' :: u) = none := matchCLink_head_ne _ _ (by decide)
  have hmu : matchUserLink ('-' :: u) = none := matchUserLink_head_ne _ _ (by decide)
  have hds : isDigitStr u = true := (isDigitStr_iff u).mpr ⟨hne, hdig⟩
  rw [normalize_channel_token, if_neg (by simp), hstrip, if_neg (by simp), hmc, hmu]
  simp [hds]

/-- Fixed point of `normalize_channel_token` on at-sign outputs, whose tails
are always stripped. -/
theorem normalize_at_stripped (u : List Char) :
    normalize_channel_token ('@' :: pyStrip u) = some ('@' :: pyStrip u) := by
  have ha : pySpace '@' = false := by decide
  have hstrip : pyStrip ('@' :: pyStrip u) = '@' :: pyStrip u := by
    rw [pyStrip, lstrip_cons_nonspace _ _ ha, rstrip_cons_nonspace _ _ ha, rstrip_pyStrip]
  have hmc : matchCLink ('@' :: pyStrip u) = none := matchCLink_head_ne _ _ (by decide)
  have hmu : matchUserLink ('@' :: pyStrip u) = none := matchUserLink_head_ne _ _ (by decide)
  rw [normalize_channel_token, if_neg (by simp), hstrip, if_neg (by simp), hmc, hmu]
  simp [pyStrip_idem]

/-- C10: `normalize_channel_token` is idempotent on its successful outputs. -/
theorem normalizeIdempotent (s t : List Char)
    (h : normalize_channel_token s = some t) :
    normalize_channel_token t = some t := by
  rw [normalize_channel_token] at h
  split at h
  · cases h
  split at h
  · cases h
  split at h
  next ds hm =>
    injection h with h2
    subst h2
    obtain ⟨hne, hdig⟩ := matchCLink_some _ _ hm
    rw [show litDash100 ++ ds = '-' :: (lit100 ++ ds) from rfl]
    refine normalize_dash_digits (lit100 ++ ds) (by simp [lit100]) ?_
    rw [List.all_append]
    simp [hdig, lit100]
  next hm =>
    split at h
    next us hu =>
      injection h with h2
      subst h2
      obtain ⟨hne, hword⟩ := matchUserLink_some _ _ hu
      have husp : pyStrip us = us :=
        pyStrip_eq_self us
          (fun c hc => not_space_of_word c (List.all_eq_true.mp hword c hc))
      rw [show ('@' :: us) = ('@' :: pyStrip us) from by rw [husp]]
      exact normalize_at_stripped us
    next hu =>
      split at h
      next hsp => cases h
      next c rest hsp =>
        split at h
        next hat =>
          injection h with h2
          subst h2
          exact normalize_at_stripped rest
        next hat =>
          split at h
          next hdash =>
            injection h with h2
            subst h2
            obtain ⟨hc, hds⟩ := hdash
            subst hc
            obtain ⟨hne, hdig⟩ := (isDigitStr_iff rest).mp hds
            exact normalize_dash_digits rest hne hdig
          next hdash =>
            split at h
            next hdig =>
              split at h
              next hpre =>
                exfalso
                by_cases hcdash : c = '-'
                · subst hcdash
                  have hm2 := List.all_eq_true.mp ((isDigitStr_iff _).mp hdig).2 '-'
                    (List.mem_cons_self _ _)
                  exact absurd hm2 (by decide)
                · rw [show litDash100 = '-' :: ['1', '0', '0'] from rfl,
                    consumeLit_head_ne _ _ _ _ hcdash] at hpre
                  cases hpre
              next hpre =>
                injection h with h2
                subst h2
                obtain ⟨-, hall⟩ := (isDigitStr_iff _).mp hdig
                rw [show litDash100 ++ (c :: rest) = '-' :: (lit100 ++ (c :: rest)) from rfl]
                refine normalize_dash_digits (lit100 ++ (c :: rest)) (by simp [lit100]) ?_
                rw [List.all_append]
                simp [hall, lit100]
            next hdig => cases h

/-- C10 witness: the digit input `"123"` normalizes to `"-100123"`, which is
itself a fixed point of `normalize_channel_token`. -/
theorem normalizeIdempotent_witness :
    normalize_channel_token ['-', '1', '0', '0', '1', '2', '3'] =
      some ['-', '1', '0', '0', '1', '2', '3'] :=
  normalizeIdempotent ['1', '2', '3'] ['-', '1', '0', '0', '1', '2', '3'] (by decide)

end TGRelay
